import Mathlib

/-!
Verification of the g-branches tool (src/g_branches) against its
specification.  The Python modules `models.py`, `git_operations.py` and
`cli.py` are shallowly embedded below: Python strings stay `String` but
every operation on them is re-implemented on the underlying character
list so that all definitions evaluate; commit timestamps (timezone-aware
datetimes, totally ordered) are embedded as `Int`; fallible calls return
`Except`; the per-branch try/except blocks become `Option`-valued
metadata reads.
-/

namespace GBranches

/-! ## Python string primitives (character-list semantics) -/

/-- Python `s.startswith(p)`. -/
def pyStartsWith (s p : String) : Bool :=
  p.data.isPrefixOf s.data

/-- Python `s.endswith(p)`. -/
def pyEndsWith (s p : String) : Bool :=
  p.data.reverse.isPrefixOf s.data.reverse

/-- Python `c in s` for a single-character needle. -/
def pyContainsChar (s : String) (c : Char) : Bool :=
  s.data.contains c

/-- Python `s[:n]` on a `str` (first `n` code points). -/
def pySlice (s : String) (n : Nat) : String :=
  ⟨s.data.take n⟩

/-- Python `s.strip()`: drop whitespace from both ends. -/
def pyStrip (s : String) : String :=
  ⟨((s.data.dropWhile Char.isWhitespace).reverse.dropWhile Char.isWhitespace).reverse⟩

/-- Python `s.replace(pat, repl)` on character lists: replace every
non-overlapping occurrence of `pat`, scanning left to right.  `fuel`
bounds the recursion (one unit per emitted position); callers pass the
length of the subject string, which always suffices. -/
def pyReplaceChars (pat repl : List Char) : Nat → List Char → List Char
  | _, [] => []
  | 0, l => l
  | fuel + 1, c :: cs =>
    if !pat.isEmpty && pat.isPrefixOf (c :: cs) then
      repl ++ pyReplaceChars pat repl fuel (cs.drop (pat.length - 1))
    else
      c :: pyReplaceChars pat repl fuel cs

/-- Python `s.replace(pat, repl)`. -/
def pyReplace (s pat repl : String) : String :=
  ⟨pyReplaceChars pat.data repl.data s.data.length s.data⟩

/-- Python `message.strip().split("\n")[0]`: `split` on a one-character
separator always yields a nonempty list whose first element is the text
before the first separator, so this is the stripped text up to the first
newline. -/
def firstLine (s : String) : String :=
  ⟨(pyStrip s).data.takeWhile (fun c => c ≠ '\n')⟩

/-! ## models.py -/

/-- Information about a git branch (`models.BranchInfo`). -/
structure BranchInfo where
  name : String
  commit_hash : String
  commit_date : Int
  commit_message : String
  is_current : Bool
  is_remote : Bool
  deriving Repr, DecidableEq

/-- Return short commit hash (7 characters): `commit_hash[:7]`. -/
def BranchInfo.short_hash (b : BranchInfo) : String :=
  pySlice b.commit_hash 7

/-- Format branch name with current indicator (`display_name`). -/
def BranchInfo.display_name (b : BranchInfo) : String :=
  (if b.is_current then "* " else "  ") ++ b.name

/-! ## Repository state, as observed through GitPython

`get_all_branches` reads, for every local branch and remote ref, the tip
commit's hash, committed datetime and message; any exception while doing
so skips that entry.  A failing metadata read is embedded as `none`. -/

/-- Tip-commit metadata of a ref, as read by `get_all_branches`. -/
structure Commit where
  hexsha : String
  committed_datetime : Int
  message : String
  deriving Repr, DecidableEq

/-- A local branch head: its name, and its commit metadata when readable. -/
structure LocalBranch where
  name : String
  commit : Option Commit
  deriving Repr, DecidableEq

/-- A remote-tracking reference (full name such as `origin/main` or the
symbolic `origin/HEAD`), and its commit metadata when readable. -/
structure RemoteRef where
  name : String
  commit : Option Commit
  deriving Repr, DecidableEq

/-- One configured remote with its refs. -/
structure Remote where
  refs : List RemoteRef
  deriving Repr, DecidableEq

/-- The repository state visible to `GitBranchManager`. -/
structure RepoState where
  is_detached : Bool
  active_branch : String
  branches : List LocalBranch
  remotes : List Remote
  deriving Repr, DecidableEq

/-! ## git_operations.py -/

/-- Errors raised by `GitBranchManager` (exceptions.py). -/
inductive GitError where
  | noBranchesFound (msg : String)
  | gitOperationError (msg : String)
  deriving Repr, DecidableEq

/-- Get the name of the current branch, or the detached sentinel
(`get_current_branch`). -/
def get_current_branch (repo : RepoState) : String :=
  if repo.is_detached then "HEAD (detached)" else repo.active_branch

/-- Body of the per-local-branch loop of `get_all_branches`: build the
`BranchInfo`, or skip the branch when its metadata cannot be read. -/
def processLocal (current_branch_name : String) (b : LocalBranch) :
    Option BranchInfo :=
  match b.commit with
  | none => none
  | some c => some
      { name := b.name
        commit_hash := c.hexsha
        commit_date := c.committed_datetime
        commit_message := firstLine c.message
        is_current := b.name == current_branch_name
        is_remote := false }

/-- Body of the per-remote-ref loop of `get_all_branches`: skip `*/HEAD`
refs, skip refs whose metadata cannot be read, otherwise build the
`BranchInfo`. -/
def processRemoteRef (r : RemoteRef) : Option BranchInfo :=
  if pyEndsWith r.name "/HEAD" then none
  else
    match r.commit with
    | none => none
    | some c => some
        { name := r.name
          commit_hash := c.hexsha
          commit_date := c.committed_datetime
          commit_message := firstLine c.message
          is_current := false
          is_remote := true }

/-- The `branches` list accumulated by `get_all_branches` before the
final sort: local branches in order, then (when requested) every
remote's refs in order. -/
def collectBranches (repo : RepoState) (include_remote : Bool) :
    List BranchInfo :=
  repo.branches.filterMap (processLocal (get_current_branch repo)) ++
    (if include_remote then
      (repo.remotes.map (fun rem => rem.refs.filterMap processRemoteRef)).flatten
    else [])

/-- Sort key of `branches.sort(key=lambda b: b.commit_date, reverse=True)`:
`a` may precede `b` iff `a.commit_date ≥ b.commit_date`. -/
def commitDateGe (a b : BranchInfo) : Bool :=
  decide (b.commit_date ≤ a.commit_date)

/-- Fetch all branches sorted by commit date, newest first
(`get_all_branches`).  Python's `list.sort` is stable, and
`reverse=True` sorts stably by descending key, which is exactly
`mergeSort` under `commitDateGe`. -/
def get_all_branches (repo : RepoState) (include_remote : Bool) :
    Except GitError (List BranchInfo) :=
  let branches := collectBranches repo include_remote
  if branches.isEmpty then
    .error (.noBranchesFound "No branches found in repository")
  else
    .ok (branches.mergeSort commitDateGe)

/-! ## get_branch_diff

`get_branch_diff` resolves the branch name (via `repo.commit(name)` when
the name contains a slash, via `repo.branches[name]` otherwise), picks
the diff target (first parent, or — for a root commit — the empty tree),
asks the engine for per-file patches, concatenates the non-empty ones
and substitutes the sentinel when nothing remains. -/

/-- A commit as seen by the diff path: its hash and its parents' tip
metadata (only the first parent is ever used). -/
structure DiffCommit where
  hexsha : String
  parents : List DiffCommit

/-- One `git.Diff` item: its textual patch, `none` when the engine
produced no patch text for the file. -/
structure DiffItem where
  diff : Option String
  deriving Repr, DecidableEq

/-- Modelled from the spec: the external version-control engine's patch
formatter (`commit.diff(other, create_patch=True)` in GitPython, which is
not part of this repository).  Per the spec's engine contract it
produces the per-file patches between a commit and either another commit
(`some parent`) or the empty tree (`none`, the target the code selects
for a root commit). -/
structure DiffEngine where
  patch : DiffCommit → Option DiffCommit → List DiffItem

/-- The repository state visible to `get_branch_diff`: local branches by
name, and the commits reachable by revision lookup (`repo.commit(name)`,
used for names containing a slash). -/
structure DiffRepo where
  engine : DiffEngine
  branchTips : List (String × DiffCommit)
  refTips : List (String × DiffCommit)

/-- Name lookup in an association list (GitPython's `repo.branches[name]`
/ `repo.commit(name)`, which raise when the name is unknown). -/
def lookupTip (l : List (String × DiffCommit)) (n : String) :
    Option DiffCommit :=
  (l.find? (fun p => p.1 == n)).map (fun p => p.2)

/-- The `diff_text` accumulation loop: concatenate `diff_item.diff` for
every item whose patch text is truthy (present and non-empty). -/
def concatPatches (items : List DiffItem) : String :=
  items.foldl
    (fun acc it =>
      match it.diff with
      | some s => acc ++ s
      | none => acc) ""

/-- Branch-name resolution as performed by `get_branch_diff`:
`repo.commit(branch_name)` when the name contains a slash (remote
branches), `self.repo.branches[branch_name].commit` otherwise. -/
def resolveTip (repo : DiffRepo) (branch_name : String) : Option DiffCommit :=
  if pyContainsChar branch_name '/' then lookupTip repo.refTips branch_name
  else lookupTip repo.branchTips branch_name

/-- Get the diff for the last commit on a branch (`get_branch_diff`). -/
def get_branch_diff (repo : DiffRepo) (branch_name : String) :
    Except GitError String :=
  match resolveTip repo branch_name with
  | none =>
      .error (.gitOperationError ("Failed to get diff for " ++ branch_name))
  | some commit =>
      let diff :=
        match commit.parents with
        | p :: _ => repo.engine.patch commit (some p)
        | [] => repo.engine.patch commit none
      let diff_text := concatPatches diff
      .ok (if diff_text = "" then "No changes in this commit" else diff_text)

/-! ## checkout_branch -/

/-- The git invocation `checkout_branch` ends up issuing:
`repo.git.checkout(name)` or `repo.git.checkout("-b", local, target)`. -/
inductive CheckoutCall where
  | checkout (name : String)
  | checkoutNewTracking (local_name : String) (target : String)
  deriving Repr, DecidableEq

/-- Switch to the specified branch (`checkout_branch`), abstracted over
the issued git command.  `local_branch_names` is
`[b.name for b in self.repo.branches]`. -/
def checkout_branch (local_branch_names : List String)
    (branch_name : String) : CheckoutCall :=
  if pyStartsWith branch_name "origin/" then
    let local_name := pyReplace branch_name "origin/" ""
    if local_branch_names.contains local_name then
      .checkout local_name
    else
      .checkoutNewTracking local_name branch_name
  else
    .checkout branch_name

/-! ## cli.py

The entry point is a `typer` command.  Every exception the body can see
is listed below.  `typer.Exit` is `click.exceptions.Exit`, which derives
from `RuntimeError` and hence from `Exception`; `KeyboardInterrupt`
derives only from `BaseException`.  This inheritance decides which
`except` clause of `main` catches what. -/

/-- Exceptions observable inside `cli.main`'s `try` block. -/
inductive PyExc where
  | gitRepositoryError
  | noBranchesFoundError
  | gitOperationError
  | typerExit (code : Nat)
  | keyboardInterrupt
  | otherException
  deriving Repr, DecidableEq

/-- The outside world as `cli.main` consumes it: the outcome of each
effectful step, in program order.  A `.error` models that step raising;
`keyboardInterrupt` may appear at any step. -/
structure CliWorld where
  init_result : Except PyExc Unit
  branches_result : Except PyExc (List BranchInfo)
  select_result : Except PyExc (Option BranchInfo)
  diff_result : Except PyExc String
  confirm_result : Except PyExc Bool
  checkout_result : Except PyExc Unit

/-- The `try` block of `cli.main`.  `raise typer.Exit(k)` inside the
block is `throw (.typerExit k)`; the inner `try`/`except
GitOperationError` around the diff downgrades only that exception. -/
def mainTryBody (w : CliWorld) (auto_switch : Bool) : Except PyExc Unit := do
  let _ ← w.init_result
  let _branches ← w.branches_result
  let selected? ← w.select_result
  match selected? with
  | none =>
      throw (.typerExit 0)
  | some selected => do
      let _diffs ←
        match w.diff_result with
        | .ok d => pure d
        | .error .gitOperationError => pure ""
        | .error e => throw e
      if selected.is_current then
        throw (.typerExit 0)
      else do
        let should_checkout ←
          if auto_switch then pure true else w.confirm_result
        if should_checkout then
          match w.checkout_result with
          | .ok _ => pure ()
          | .error .gitOperationError => throw (.typerExit 1)
          | .error e => throw e
        else
          pure ()

/-- The full `cli.main`: run the `try` block, then dispatch on the
`except` clauses in source order.  A body that falls through returns
normally and the process exits 0; an uncaught `typer.Exit` raised inside
an `except` clause carries its code out.  Since `typer.Exit` is an
`Exception` subclass, a `typer.Exit` escaping the `try` block itself is
caught by the final `except Exception` clause, which reports
"Unexpected error" and exits 1. -/
def cliMain (w : CliWorld) (auto_switch : Bool) : Nat :=
  match mainTryBody w auto_switch with
  | .ok _ => 0
  | .error .gitRepositoryError => 1
  | .error .noBranchesFoundError => 1
  | .error .gitOperationError => 1
  | .error .keyboardInterrupt => 0
  | .error (.typerExit _) => 1
  | .error .otherException => 1

/-! ## Specification-side definitions used by refinement claims -/

/-- The per-file patch items the spec prescribes for a tip commit:
against the first parent when one exists, against the empty tree for a
root commit. -/
def diffTargetItems (engine : DiffEngine) (c : DiffCommit) : List DiffItem :=
  match c.parents with
  | p :: _ => engine.patch c (some p)
  | [] => engine.patch c none

/-- The checkout behavior claim C2 ascribes to `checkout_branch`,
written from the spec's words: a branch name of the form
`remote ++ "/" ++ short` identifies a remote-tracking reference, and
checkout reuses the local branch `short` when it exists, otherwise
creates it tracking the reference. -/
def checkoutSpecRemote (local_branch_names : List String)
    (remote short : String) : CheckoutCall :=
  if local_branch_names.contains short then
    .checkout short
  else
    .checkoutNewTracking short (remote ++ "/" ++ short)

/-! ## Helper lemmas -/

/-- A successful `get_all_branches` run returns exactly the stable
descending sort of the collected records. -/
theorem get_all_branches_ok_eq {repo : RepoState} {ir : Bool}
    {l : List BranchInfo} (h : get_all_branches repo ir = .ok l) :
    l = (collectBranches repo ir).mergeSort commitDateGe := by
  unfold get_all_branches at h
  by_cases he : (collectBranches repo ir).isEmpty <;> simp [he] at h
  exact h.symm

theorem commitDateGe_trans (a b c : BranchInfo)
    (h1 : commitDateGe a b = true) (h2 : commitDateGe b c = true) :
    commitDateGe a c = true := by
  simp only [commitDateGe, decide_eq_true_eq] at *
  omega

theorem commitDateGe_total (a b : BranchInfo) :
    (commitDateGe a b || commitDateGe b a) = true := by
  simp only [commitDateGe, Bool.or_eq_true, decide_eq_true_eq]
  omega

/-! ## Sample data for concrete witnesses -/

def commitMainW : Commit :=
  { hexsha := "aaaaaaa1111111", committed_datetime := 200
    message := "Second commit" }

def commitDevW : Commit :=
  { hexsha := "bbbbbbb2222222", committed_datetime := 100
    message := "Initial commit" }

def repoW : RepoState :=
  { is_detached := false
    active_branch := "main"
    branches :=
      [{ name := "main", commit := some commitMainW },
       { name := "dev", commit := some commitDevW }]
    remotes :=
      [{ refs :=
          [{ name := "origin/HEAD", commit := some commitMainW },
           { name := "origin/main", commit := some commitMainW }] }] }

def branchInfoW : BranchInfo :=
  { name := "dev", commit_hash := "bbbbbbb2222222", commit_date := 100
    commit_message := "Initial commit", is_current := false
    is_remote := false }

def branchInfoMainW : BranchInfo :=
  { name := "main", commit_hash := "aaaaaaa1111111", commit_date := 200
    commit_message := "Second commit", is_current := true
    is_remote := false }

/-! ## Claim theorems -/

/-- C9: for every `BranchInfo` whose `commit_hash` has at least 7
characters, `short_hash` is exactly the first 7 characters of
`commit_hash`: it has length 7 and extending it with the remaining
characters recovers the full hash. -/
theorem short_hash_is_first_seven (b : BranchInfo)
    (h : 7 ≤ b.commit_hash.length) :
    b.short_hash.length = 7 ∧
      b.short_hash ++ (⟨b.commit_hash.data.drop 7⟩ : String) = b.commit_hash := by
  obtain ⟨name, hash, date, msg, cur, rem⟩ := b
  obtain ⟨hd⟩ := hash
  refine ⟨?_, ?_⟩
  · simp only [String.length, BranchInfo.short_hash, pySlice,
      List.length_take] at h ⊢
    omega
  · show String.mk (hd.take 7 ++ hd.drop 7) = String.mk hd
    exact congrArg String.mk (List.take_append_drop 7 hd)

/-- Witness for C9 at a concrete 14-character hash. -/
theorem short_hash_is_first_seven_witness :
    branchInfoW.short_hash.length = 7 ∧
      branchInfoW.short_hash ++
          (⟨branchInfoW.commit_hash.data.drop 7⟩ : String) =
        branchInfoW.commit_hash :=
  short_hash_is_first_seven branchInfoW (by decide)

/-- C2 counterexample: `upstream/foo` names a remote-tracking reference
of the remote `upstream`, yet `checkout_branch` does not create or reuse
a local `foo`; it switches directly to the name as given, because only
the literal prefix `origin/` is treated as remote. -/
theorem checkout_branch_upstream_counterexample :
    checkout_branch [] "upstream/foo" = .checkout "upstream/foo" ∧
      checkout_branch [] "upstream/foo" ≠ checkoutSpecRemote [] "upstream" "foo" := by
  decide

/-- C2 (amended): for a branch name starting with `origin/`,
`checkout_branch` derives the local name by deleting every occurrence of
`origin/`, switches to it when a local branch of that name exists and
otherwise creates it tracking the given reference; every other branch
name — including remote-tracking references of other remotes — is
checked out directly by name. -/
theorem checkout_branch_cases (locals : List String) (name : String) :
    (pyStartsWith name "origin/" = true →
      (pyReplace name "origin/" "" ∈ locals →
          checkout_branch locals name =
            .checkout (pyReplace name "origin/" "")) ∧
      (pyReplace name "origin/" "" ∉ locals →
          checkout_branch locals name =
            .checkoutNewTracking (pyReplace name "origin/" "") name)) ∧
    (pyStartsWith name "origin/" = false →
        checkout_branch locals name = .checkout name) := by
  refine ⟨fun h => ⟨fun hc => ?_, fun hc => ?_⟩, fun h => ?_⟩
  · simp [checkout_branch, h, hc]
  · simp [checkout_branch, h, hc]
  · simp [checkout_branch, h]

/-- Witness for C2 (amended): checking out `origin/foo` with no local
`foo` creates a tracking branch `foo`. -/
theorem checkout_branch_cases_witness :
    checkout_branch ["main"] "origin/foo" =
      .checkoutNewTracking (pyReplace "origin/foo" "origin/" "") "origin/foo" :=
  ((checkout_branch_cases ["main"] "origin/foo").1 (by decide)).2 (by decide)

/-- C5: `get_all_branches` fails with `NoBranchesFoundError` exactly
when the collected (post-filter) record sequence is empty; `Except`
guarantees that no list is returned in that case. -/
theorem get_all_branches_error_iff_empty (repo : RepoState) (ir : Bool) :
    get_all_branches repo ir =
        .error (.noBranchesFound "No branches found in repository") ↔
      collectBranches repo ir = [] := by
  unfold get_all_branches
  by_cases he : (collectBranches repo ir).isEmpty <;>
    simp_all [List.isEmpty_iff]

/-- Witness for C5: a repository with branches whose metadata is all
unreadable yields `NoBranchesFoundError`. -/
theorem get_all_branches_error_iff_empty_witness :
    get_all_branches
        { is_detached := false, active_branch := "main"
          branches := [{ name := "main", commit := none }], remotes := [] }
        false =
      .error (.noBranchesFound "No branches found in repository") :=
  (get_all_branches_error_iff_empty _ false).mpr (by rfl)

/-- C7 (code bug): when the user cancels the selection prompt (the
prompt yields no selection) the process exits with code 1, not 0.
`raise typer.Exit(0)` is executed inside the `try` block, and
`typer.Exit` derives from `RuntimeError`, so the blanket
`except Exception` clause catches it, prints "Unexpected error" and
raises `typer.Exit(1)`.  Every step before the prompt succeeded here, so
the exit is purely cancellation-induced. -/
theorem cliMain_select_cancel_exits_one :
    cliMain
      { init_result := .ok ()
        branches_result := .ok [branchInfoW]
        select_result := .ok none
        diff_result := .ok ""
        confirm_result := .ok false
        checkout_result := .ok () } false = 1 := by
  rfl

/-- C4: for every resolvable branch name, `get_branch_diff` succeeds
with a string: the concatenated per-file patches of the tip against its
first parent (or, for a root commit, against the empty tree) when that
concatenation is non-empty, and the sentinel string exactly when it is
empty. -/
theorem get_branch_diff_resolved (repo : DiffRepo) (branch_name : String)
    (c : DiffCommit) (hres : resolveTip repo branch_name = some c) :
    (concatPatches (diffTargetItems repo.engine c) = "" →
        get_branch_diff repo branch_name = .ok "No changes in this commit") ∧
    (concatPatches (diffTargetItems repo.engine c) ≠ "" →
        get_branch_diff repo branch_name =
          .ok (concatPatches (diffTargetItems repo.engine c))) := by
  have key : get_branch_diff repo branch_name =
      .ok (if concatPatches (diffTargetItems repo.engine c) = ""
        then "No changes in this commit"
        else concatPatches (diffTargetItems repo.engine c)) := by
    unfold get_branch_diff
    rw [hres]
    cases hpar : c.parents with
    | nil => simp [diffTargetItems, hpar]
    | cons p ps => simp [diffTargetItems, hpar]
  constructor <;> intro hp <;> rw [key] <;> simp [hp]

/-- Witness for C4: a root commit whose engine patch list is empty
yields the sentinel. -/
theorem get_branch_diff_resolved_witness :
    get_branch_diff
      { engine := { patch := fun _ _ => [] }
        branchTips := [("main", { hexsha := "ccccccc3333333", parents := [] })]
        refTips := [] } "main" = .ok "No changes in this commit" :=
  (get_branch_diff_resolved _ "main"
      { hexsha := "ccccccc3333333", parents := [] } (by rfl)).1 (by rfl)

/-- C1: every list returned by `get_all_branches` is pairwise sorted by
commit timestamp in descending order, and any two records with equal
timestamps appear in the same relative order as in the pre-sort
enumeration (`collectBranches`): the sort is stable. -/
theorem get_all_branches_sorted_stable (repo : RepoState) (ir : Bool)
    (l : List BranchInfo) (h : get_all_branches repo ir = .ok l) :
    l.Pairwise (fun a b => b.commit_date ≤ a.commit_date) ∧
      ∀ a b : BranchInfo, a.commit_date = b.commit_date →
        [a, b].Sublist (collectBranches repo ir) → [a, b].Sublist l := by
  rw [get_all_branches_ok_eq h]
  constructor
  · have hs := List.sorted_mergeSort
      commitDateGe_trans commitDateGe_total (collectBranches repo ir)
    exact hs.imp fun hab => by
      simpa only [commitDateGe, decide_eq_true_eq] using hab
  · intro a b hdate hsub
    exact List.pair_sublist_mergeSort commitDateGe_trans commitDateGe_total
      (by simp [commitDateGe, hdate]) hsub

unseal List.merge List.mergeSort in
/-- Witness for C1: a two-branch repository is listed newest-first. -/
theorem get_all_branches_sorted_stable_witness :
    get_all_branches repoW false = .ok [branchInfoMainW, branchInfoW] ∧
      ([branchInfoMainW, branchInfoW].Pairwise
          (fun a b => b.commit_date ≤ a.commit_date) ∧
        ∀ a b : BranchInfo, a.commit_date = b.commit_date →
          [a, b].Sublist (collectBranches repoW false) →
            [a, b].Sublist [branchInfoMainW, branchInfoW]) :=
  ⟨by rfl, get_all_branches_sorted_stable repoW false _ (by rfl)⟩

/-! ## Processor lemmas shared by the listing claims -/

theorem processLocal_some {cur : String} {lb : LocalBranch} {b : BranchInfo}
    (h : processLocal cur lb = some b) :
    b.name = lb.name ∧ b.is_remote = false ∧ b.is_current = (lb.name == cur) := by
  unfold processLocal at h
  cases hc : lb.commit with
  | none => rw [hc] at h; cases h
  | some c =>
    rw [hc] at h
    cases h
    exact ⟨rfl, rfl, rfl⟩

theorem processRemoteRef_some {r : RemoteRef} {b : BranchInfo}
    (h : processRemoteRef r = some b) :
    b.name = r.name ∧ b.is_remote = true ∧ b.is_current = false ∧
      pyEndsWith r.name "/HEAD" = false ∧
      ∃ c, r.commit = some c ∧ b.commit_hash = c.hexsha := by
  unfold processRemoteRef at h
  by_cases hhead : pyEndsWith r.name "/HEAD"
  · rw [if_pos hhead] at h; cases h
  · rw [if_neg hhead] at h
    cases hc : r.commit with
    | none => rw [hc] at h; cases h
    | some c =>
      rw [hc] at h
      cases h
      exact ⟨rfl, rfl, rfl, by simpa using hhead, c, rfl, rfl⟩

theorem mem_remoteCollect {rems : List Remote} {b : BranchInfo}
    (hb : b ∈ (rems.map (fun rem => rem.refs.filterMap processRemoteRef)).flatten) :
    ∃ rem ∈ rems, ∃ ref ∈ rem.refs, processRemoteRef ref = some b := by
  rw [List.mem_flatten] at hb
  obtain ⟨s, hs, hbs⟩ := hb
  rw [List.mem_map] at hs
  obtain ⟨rem, hrem, rfl⟩ := hs
  rw [List.mem_filterMap] at hbs
  obtain ⟨ref, href, hp⟩ := hbs
  exact ⟨rem, hrem, ref, href, hp⟩

/-- When the current-branch name belongs to none of the branches, the
processed local records all carry `is_current = false`. -/
theorem countP_current_zero (cur : String) (bs : List LocalBranch)
    (hcur : cur ∉ bs.map LocalBranch.name) :
    (bs.filterMap (processLocal cur)).countP (fun b => b.is_current) = 0 := by
  induction bs with
  | nil => rfl
  | cons lb bs ih =>
    simp only [List.map_cons, List.mem_cons, not_or] at hcur
    obtain ⟨hne, hcur'⟩ := hcur
    cases hc : lb.commit with
    | none => simpa [List.filterMap_cons, processLocal, hc] using ih hcur'
    | some c =>
      have hne' : (lb.name == cur) = false := by
        simp only [beq_eq_false_iff_ne, ne_eq]
        exact fun hh => hne hh.symm
      simp [List.filterMap_cons, processLocal, hc, List.countP_cons, hne',
        ih hcur']

/-- With pairwise-distinct local branch names, at most one processed
local record is marked current. -/
theorem countP_current_le_one (cur : String) (bs : List LocalBranch)
    (hnd : (bs.map LocalBranch.name).Nodup) :
    (bs.filterMap (processLocal cur)).countP (fun b => b.is_current) ≤ 1 := by
  induction bs with
  | nil => simp
  | cons lb bs ih =>
    rw [List.map_cons, List.nodup_cons] at hnd
    obtain ⟨hmem, hnd'⟩ := hnd
    cases hc : lb.commit with
    | none => simpa [List.filterMap_cons, processLocal, hc] using ih hnd'
    | some c =>
      by_cases hbc : lb.name = cur
      · have h0 := countP_current_zero cur bs (by rw [← hbc]; exact hmem)
        simp [List.filterMap_cons, processLocal, hc, List.countP_cons, hbc, h0]
      · have hne' : (lb.name == cur) = false := by
          simp only [beq_eq_false_iff_ne, ne_eq]
          exact hbc
        simp only [List.filterMap_cons, processLocal, hc, List.countP_cons,
          hne', if_false]
        simpa using ih hnd'

/-- C3: in every listing (local-only or with remotes) at most one record
has `is_current` true, and every current record is local. -/
theorem listing_at_most_one_current (repo : RepoState) (ir : Bool)
    (l : List BranchInfo)
    (hnd : (repo.branches.map LocalBranch.name).Nodup)
    (h : get_all_branches repo ir = .ok l) :
    l.countP (fun b => b.is_current) ≤ 1 ∧
      ∀ b ∈ l, b.is_current = true → b.is_remote = false := by
  rw [get_all_branches_ok_eq h]
  have hperm := List.mergeSort_perm (collectBranches repo ir) commitDateGe
  constructor
  · rw [hperm.countP_eq]
    unfold collectBranches
    rw [List.countP_append]
    have h1 := countP_current_le_one (get_current_branch repo)
      repo.branches hnd
    have h2 : (if ir = true then
          (repo.remotes.map
            (fun rem => rem.refs.filterMap processRemoteRef)).flatten
        else []).countP (fun b => b.is_current) = 0 := by
      split
      · rw [List.countP_eq_zero]
        intro b hb
        obtain ⟨rem, _, ref, _, hp⟩ := mem_remoteCollect hb
        simp [(processRemoteRef_some hp).2.2.1]
      · rfl
    omega
  · intro b hb hcur
    rw [List.mem_mergeSort] at hb
    unfold collectBranches at hb
    rw [List.mem_append] at hb
    rcases hb with hb | hb
    · rw [List.mem_filterMap] at hb
      obtain ⟨lb, _, hp⟩ := hb
      exact (processLocal_some hp).2.1
    · split at hb
      · obtain ⟨rem, _, ref, _, hp⟩ := mem_remoteCollect hb
        have hfalse := (processRemoteRef_some hp).2.2.1
        rw [hcur] at hfalse
        cases hfalse
      · cases hb

def branchInfoOriginMainW : BranchInfo :=
  { name := "origin/main", commit_hash := "aaaaaaa1111111", commit_date := 200
    commit_message := "Second commit", is_current := false
    is_remote := true }

unseal List.merge List.mergeSort in
/-- Witness for C3 on a repository with two local branches and one
remote (whose `origin/HEAD` pointer is skipped). -/
theorem listing_at_most_one_current_witness :
    ([branchInfoMainW, branchInfoOriginMainW, branchInfoW].countP
        (fun b => b.is_current) ≤ 1) ∧
      ∀ b ∈ [branchInfoMainW, branchInfoOriginMainW, branchInfoW],
        b.is_current = true → b.is_remote = false :=
  listing_at_most_one_current repoW true
    [branchInfoMainW, branchInfoOriginMainW, branchInfoW]
    (by decide) (by rfl)

/-- C6: with remotes requested, every remote-tracking reference with
readable metadata is listed unless it is a `*/HEAD` pointer, and every
remote record of the listing is non-current and stems from a non-HEAD
remote ref. -/
theorem remote_refs_in_listing (repo : RepoState) (l : List BranchInfo)
    (h : get_all_branches repo true = .ok l) :
    (∀ rem ∈ repo.remotes, ∀ ref ∈ rem.refs,
        pyEndsWith ref.name "/HEAD" = false →
        ∀ c, ref.commit = some c →
        ∃ b ∈ l, b.name = ref.name ∧ b.commit_hash = c.hexsha ∧
          b.is_remote = true ∧ b.is_current = false) ∧
    (∀ b ∈ l, b.is_remote = true →
        b.is_current = false ∧
        ∃ rem ∈ repo.remotes, ∃ ref ∈ rem.refs, ref.name = b.name ∧
          pyEndsWith ref.name "/HEAD" = false) := by
  rw [get_all_branches_ok_eq h]
  constructor
  · intro rem hrem ref href hhead c hc
    refine ⟨{ name := ref.name, commit_hash := c.hexsha
              commit_date := c.committed_datetime
              commit_message := firstLine c.message
              is_current := false, is_remote := true },
        ?_, rfl, rfl, rfl, rfl⟩
    rw [List.mem_mergeSort]
    unfold collectBranches
    rw [List.mem_append]
    right
    rw [if_pos rfl, List.mem_flatten]
    refine ⟨rem.refs.filterMap processRemoteRef,
      List.mem_map_of_mem _ hrem, ?_⟩
    rw [List.mem_filterMap]
    refine ⟨ref, href, ?_⟩
    simp [processRemoteRef, hhead, hc]
  · intro b hb hrem
    rw [List.mem_mergeSort] at hb
    unfold collectBranches at hb
    rw [List.mem_append] at hb
    rcases hb with hb | hb
    · rw [List.mem_filterMap] at hb
      obtain ⟨lb, _, hp⟩ := hb
      have hloc := (processLocal_some hp).2.1
      rw [hrem] at hloc
      cases hloc
    · rw [if_pos rfl] at hb
      obtain ⟨rem, hrem', ref, href, hp⟩ := mem_remoteCollect hb
      obtain ⟨hname, _, hcurf, hhead, _⟩ := processRemoteRef_some hp
      exact ⟨hcurf, rem, hrem', ref, href, hname.symm, hhead⟩

unseal List.merge List.mergeSort in
/-- Witness for C6: `origin/main` of the sample repository is listed as
a remote, non-current record. -/
theorem remote_refs_in_listing_witness :
    ∃ b ∈ [branchInfoMainW, branchInfoOriginMainW, branchInfoW],
      b.name = "origin/main" ∧ b.commit_hash = commitMainW.hexsha ∧
        b.is_remote = true ∧ b.is_current = false :=
  (remote_refs_in_listing repoW
      [branchInfoMainW, branchInfoOriginMainW, branchInfoW] (by rfl)).1
    { refs := [{ name := "origin/HEAD", commit := some commitMainW },
               { name := "origin/main", commit := some commitMainW }] }
    (by decide)
    { name := "origin/main", commit := some commitMainW }
    (by decide) (by decide) commitMainW rfl

/-! ## C8: unreadable entries are skipped, nothing else changes -/

/-- The repository with every unreadable local branch and remote ref
removed. -/
def pruneUnreadable (repo : RepoState) : RepoState :=
  { repo with
    branches := repo.branches.filter (fun b => b.commit.isSome)
    remotes := repo.remotes.map
      (fun r => { refs := r.refs.filter (fun f => f.commit.isSome) }) }

theorem processLocal_of_unreadable (cur : String) (lb : LocalBranch)
    (h : lb.commit.isSome = false) : processLocal cur lb = none := by
  unfold processLocal
  cases hc : lb.commit with
  | none => rfl
  | some c => rw [hc] at h; cases h

theorem processRemoteRef_of_unreadable (r : RemoteRef)
    (h : r.commit.isSome = false) : processRemoteRef r = none := by
  unfold processRemoteRef
  cases hc : r.commit with
  | none => split <;> rfl
  | some c => rw [hc] at h; cases h

/-- Filtering out elements the partial map sends to `none` does not
change a `filterMap`. -/
theorem filterMap_filter_eq {α β : Type} (f : α → Option β) (p : α → Bool)
    (hf : ∀ a, p a = false → f a = none) (l : List α) :
    (l.filter p).filterMap f = l.filterMap f := by
  induction l with
  | nil => rfl
  | cons a l ih =>
    cases hp : p a with
    | true =>
      rw [List.filter_cons_of_pos hp, List.filterMap_cons, List.filterMap_cons,
        ih]
    | false =>
      rw [List.filter_cons_of_neg (by simp [hp]), List.filterMap_cons,
        hf a hp, ih]

/-- C8: a listing run on a repository equals the run on the same
repository with every unreadable branch and remote ref removed —
individual metadata failures omit only the affected entry, and the rest
of the listing is still produced. -/
theorem get_all_branches_skips_unreadable (repo : RepoState) (ir : Bool) :
    get_all_branches repo ir = get_all_branches (pruneUnreadable repo) ir := by
  have hcur : get_current_branch (pruneUnreadable repo) =
      get_current_branch repo := rfl
  have hloc : (pruneUnreadable repo).branches.filterMap
        (processLocal (get_current_branch (pruneUnreadable repo))) =
      repo.branches.filterMap (processLocal (get_current_branch repo)) := by
    rw [hcur]
    exact filterMap_filter_eq _ _
      (fun lb hl => processLocal_of_unreadable _ lb hl) repo.branches
  have hrem : ((pruneUnreadable repo).remotes.map
        (fun rem => rem.refs.filterMap processRemoteRef)).flatten =
      (repo.remotes.map
        (fun rem => rem.refs.filterMap processRemoteRef)).flatten := by
    show ((repo.remotes.map _).map _).flatten = _
    rw [List.map_map]
    congr 1
    apply List.map_congr_left
    intro r _
    exact filterMap_filter_eq _ _
      (fun f hf => processRemoteRef_of_unreadable f hf) r.refs
  have hcol : collectBranches (pruneUnreadable repo) ir =
      collectBranches repo ir := by
    unfold collectBranches
    rw [hloc]
    cases ir with
    | true => rw [if_pos rfl, if_pos rfl, hrem]
    | false => rfl
  unfold get_all_branches
  rw [hcol]

/-- C10: with a detached HEAD the current-branch sentinel is
"HEAD (detached)", and since no branch bears that name, no listed record
is marked current. -/
theorem detached_head_no_current (repo : RepoState) (ir : Bool)
    (l : List BranchInfo) (hdet : repo.is_detached = true)
    (hname : "HEAD (detached)" ∉ repo.branches.map LocalBranch.name)
    (h : get_all_branches repo ir = .ok l) :
    get_current_branch repo = "HEAD (detached)" ∧
      ∀ b ∈ l, b.is_current = false := by
  have hcur : get_current_branch repo = "HEAD (detached)" := by
    unfold get_current_branch
    rw [hdet]
    rfl
  refine ⟨hcur, ?_⟩
  rw [get_all_branches_ok_eq h]
  intro b hb
  rw [List.mem_mergeSort] at hb
  unfold collectBranches at hb
  rw [List.mem_append] at hb
  rcases hb with hb | hb
  · rw [List.mem_filterMap] at hb
    obtain ⟨lb, hlb, hp⟩ := hb
    obtain ⟨_, _, hbcur⟩ := processLocal_some hp
    rw [hbcur, hcur]
    simp only [beq_eq_false_iff_ne, ne_eq]
    intro he
    exact hname (he ▸ List.mem_map_of_mem LocalBranch.name hlb)
  · split at hb
    · obtain ⟨rem, _, ref, _, hp⟩ := mem_remoteCollect hb
      exact (processRemoteRef_some hp).2.2.1
    · cases hb

def repoDetachedW : RepoState :=
  { is_detached := true
    active_branch := "main"
    branches := [{ name := "main", commit := some commitMainW }]
    remotes := [] }

def branchInfoDetachedW : BranchInfo :=
  { name := "main", commit_hash := "aaaaaaa1111111", commit_date := 200
    commit_message := "Second commit", is_current := false
    is_remote := false }

unseal List.merge List.mergeSort in
/-- Witness for C10 on a one-branch repository with a detached HEAD. -/
theorem detached_head_no_current_witness :
    get_current_branch repoDetachedW = "HEAD (detached)" ∧
      ∀ b ∈ [branchInfoDetachedW], b.is_current = false :=
  detached_head_no_current repoDetachedW false [branchInfoDetachedW]
    (by rfl) (by decide) (by rfl)

end GBranches
